import Mathlib

/-!
Verification development for the `vue-lang-for-laravel` plugin
(`src/index.ts`).  Strings are modelled as lists of characters
(`Str := List Char`); JavaScript objects used as dictionaries are
modelled as functions `Str → Option α`; the build-time file
enumeration (`require.context('@lang', ...)`) is modelled as an
explicit list of `(path, parsed content)` pairs.

The two path regexes of `importTranslations` are unanchored and use an
unescaped `.` before the extension alternation, so they are embedded
here as leftmost-match scanners with greedy backtracking, exactly as a
JavaScript `RegExp.exec` behaves on them.
-/

/-- Strings of the JavaScript program, modelled as character lists. -/
abbrev Str := List Char

/-- Converts a Lean string literal into the `Str` model. -/
def str (s : String) : Str := s.data

/-- The character class `[A-Za-z0-9-_]` of both path regexes, which is the
same set as `[\w-]` used by the qualified-key regex of `__`. -/
def isWordDash (c : Char) : Bool :=
  c.isAlpha || c.isDigit || c == '_' || c == '-'

/-- Matches the regex tail `.(?:php|json)` (one arbitrary character, then the
literal `php` or `json`) against a prefix of the input. -/
def matchDotExt (s : Str) : Bool :=
  match s with
  | _ :: t => List.isPrefixOf (str "php") t || List.isPrefixOf (str "json") t
  | [] => false

/-- Greedy backtracking for a capture group `([A-Za-z0-9-_]+)` followed by
`.(?:php|json)`: `run` is the maximal word-dash run at the current point,
`rest` the input after it.  Group lengths are tried from `n` down to `1`,
longest first, returning the captured group of the first success. -/
def tryG (run rest : Str) : Nat → Option Str
  | 0 => none
  | Nat.succ k =>
    if matchDotExt (run.drop (k + 1) ++ rest) then some (run.take (k + 1))
    else tryG run rest k

/-- Attempts the root regex `\.\/([A-Za-z0-9-_]+).(?:php|json)` at the current
position only, returning the captured group. -/
def rootAt (s : Str) : Option Str :=
  match s with
  | c1 :: c2 :: t =>
    if c1 = '.' ∧ c2 = '/' then
      tryG (t.takeWhile isWordDash) (t.dropWhile isWordDash)
        (t.takeWhile isWordDash).length
    else none
  | _ => none

/-- Embeds `RegExp.exec` of the root regex: leftmost match, returning capture
group 1 (`rootLocale`). -/
def execRoot : Str → Option Str
  | [] => none
  | c :: t =>
    match rootAt (c :: t) with
    | some g => some g
    | none => execRoot t

/-- The part of the scoped regex
`\.\/([A-Za-z0-9-_]+)\/([A-Za-z0-9-_]+).(?:php|json)` after the leading
`\.\/`.  The first group is forced to the maximal word-dash run (a shorter
group would face a word-dash character where `\/` is required), the second
group backtracks greedily via `tryG`. -/
def scopedGroups (t : Str) : Option (Str × Str) :=
  if (t.takeWhile isWordDash).isEmpty then none
  else
    match t.dropWhile isWordDash with
    | c3 :: t2 =>
      if c3 = '/' then
        (tryG (t2.takeWhile isWordDash) (t2.dropWhile isWordDash)
            (t2.takeWhile isWordDash).length).map
          (fun g2 => (t.takeWhile isWordDash, g2))
      else none
    | [] => none

/-- Attempts the scoped regex at the current position only: `./`, then the
two groups as in `scopedGroups`. -/
def scopedAt (s : Str) : Option (Str × Str) :=
  match s with
  | c1 :: c2 :: t =>
    if c1 = '.' ∧ c2 = '/' then scopedGroups t
    else none
  | _ => none

/-- Embeds `RegExp.exec` of the scoped regex: leftmost match, returning capture
groups 1 and 2 (`locale`, `domain`). -/
def execScoped : Str → Option (Str × Str)
  | [] => none
  | c :: t =>
    match scopedAt (c :: t) with
    | some g => some g
    | none => execScoped t

/-- The `IgnoreList` configuration, modelled as the sequence of
`(locale, domains)` entries that `Object.entries(ignore)` yields. -/
abbrev IgnoreList := List (Str × List Str)

/-- Embeds `shouldIgnore` (src/index.ts lines 34-42): iterates the entries of
the ignore list and reports whether some entry has this locale and lists this
domain.  `locale` and `domain` are `Option Str` because the caller passes the
regex capture groups, which are `undefined` when the scoped regex failed;
`undefined === entryKey` and `ignoreDomains.includes(undefined)` are both
false, which the `Option` comparison reproduces. -/
def shouldIgnore (ignore : IgnoreList) (locale domain : Option Str) : Bool :=
  ignore.any (fun e => locale == some e.1 && e.2.any (fun d => domain == some d))

/-- JavaScript template-literal coercion of a possibly-`undefined` string:
`${x}` renders `undefined` as the text `undefined`. -/
def jsKey (o : Option Str) : Str := o.getD (str "undefined")

/-- Assignment `catalogue[k] = v` on a JavaScript object used as a map. -/
def update (catalogue : Str → Option α) (k : Str) (v : α) : Str → Option α :=
  fun q => if q = k then some v else catalogue q

/-- One iteration of the `files.keys().forEach` body of `importTranslations`
(src/index.ts lines 51-68): try the root regex, on success store under
`` `${rootLocale}.${globalTranslationsKey}` `` and stop; otherwise run the
scoped regex and — since the code never tests `isScoped` — store under
`` `${locale}.${domain}` `` unless `ignore` is present and
`shouldIgnore(ignore, locale, domain)` holds. -/
def catStep (ignore : Option IgnoreList) (gk : Str)
    (catalogue : Str → Option α) (f : Str × α) : Str → Option α :=
  match execRoot f.1 with
  | some rootLocale => update catalogue (rootLocale ++ '.' :: gk) f.2
  | none =>
    let m := execScoped f.1
    let locale := m.map Prod.fst
    let domain := m.map Prod.snd
    if ignore.isNone || !shouldIgnore (ignore.getD []) locale domain then
      update catalogue (jsKey locale ++ '.' :: jsKey domain) f.2
    else catalogue

/-- Embeds `importTranslations` (src/index.ts lines 47-71): folds the
enumerated `(path, parsed content)` pairs into a catalogue, starting from the
empty object. -/
def importTranslations (ignore : Option IgnoreList) (gk : Str)
    (fs : List (Str × α)) : Str → Option α :=
  fs.foldl (catStep ignore gk) (fun _ => none)

/-- The key (if any) that one file writes into the catalogue: `some k` when
the `forEach` body performs `catalogue[k] = ...` for this file, `none` when
the file is skipped by the ignore filter. -/
def emitKey (ignore : Option IgnoreList) (gk : Str) (file : Str) : Option Str :=
  match execRoot file with
  | some rootLocale => some (rootLocale ++ '.' :: gk)
  | none =>
    let m := execScoped file
    let locale := m.map Prod.fst
    let domain := m.map Prod.snd
    if ignore.isNone || !shouldIgnore (ignore.getD []) locale domain then
      some (jsKey locale ++ '.' :: jsKey domain)
    else none

/-- The key a file would write ignoring the ignore filter (the classification
key alone).  Every write of the builder, under any ignore list, targets this
key. -/
def preKey (gk : Str) (file : Str) : Str :=
  match execRoot file with
  | some rootLocale => rootLocale ++ '.' :: gk
  | none =>
    let m := execScoped file
    jsKey (m.map Prod.fst) ++ '.' :: jsKey (m.map Prod.snd)

/-- Membership of a catalogue key in the set of ignored `locale.domain`
composites named by an ignore list. -/
def ignoredKey (ignore : IgnoreList) (k : Str) : Bool :=
  ignore.any (fun e => e.2.any (fun d => k == e.1 ++ '.' :: d))

/-- Embeds the qualified-key regex `^[\w-]+(?:\.[\w-]+)+$` of `__`
(src/index.ts line 110): splitting on the dots, fully anchored.  First the
dot splitter (`"a.b"` into `["a","b"]`, keeping empty parts). -/
def splitDot : Str → List Str
  | [] => [[]]
  | c :: t =>
    let r := splitDot t
    if c = '.' then [] :: r
    else (c :: r.headD []) :: r.tail

/-- A key matches `^[\w-]+(?:\.[\w-]+)+$` iff it splits on `.` into two or
more parts, each nonempty and made of word or hyphen characters. -/
def matchesQualified (key : Str) : Bool :=
  let ps := splitDot key
  decide (2 ≤ ps.length) && ps.all (fun p => !p.isEmpty && p.all isWordDash)

/-- Embeds the translation function `__` (src/index.ts lines 108-120) over an
abstract external translator `get` (the `i18n.get` of lang.js), with
`replacements` and `locale` of abstract types forwarded verbatim.  A
qualified key is delegated directly; otherwise the key is qualified with
`` `${globalTranslationsKey}.` ``, and a result that `startsWith` the
global key (the dot is not part of this check) is stripped by
`substr(globalTranslationsKey.length + 1)`. -/
def __ {R L : Type} (gk : Str) (get : Str → R → L → Str)
    (key : Str) (replacements : R) (locale : L) : Str :=
  if matchesQualified key then get key replacements locale
  else
    let result := get (gk ++ '.' :: key) replacements locale
    if List.isPrefixOf gk result then result.drop (gk.length + 1) else result

/-- The options record accepted by `install` (`Partial<Options>`): every
field may be absent. -/
structure Options (α : Type) where
  ignore : Option IgnoreList
  globalTranslationsKey : Option Str
  messages : Option (Str → Option α)

/-- The effective global-translations key after the defaulting
`options = { globalTranslationsKey: '__global__', ...options }` of `install`
(src/index.ts lines 93-96). -/
def gkEff (o : Options α) : Str :=
  o.globalTranslationsKey.getD (str "__global__")

/-- The `messages` value handed to the Translator constructor
(src/index.ts line 102): `options?.messages ?? importTranslations(options)`,
with `??` short-circuiting so discovery runs only when `messages` is
absent. -/
def installMessages (o : Options α) (fs : List (Str × α)) : Str → Option α :=
  match o.messages with
  | some m => m
  | none => importTranslations o.ignore (gkEff o) fs

/-!  Helper lemmas about the catalogue builder. -/

theorem update_apply (catalogue : Str → Option α) (k : Str) (v : α) (q : Str) :
    update catalogue k v q = if q = k then some v else catalogue q := rfl

/-- One `forEach` iteration writes exactly the key described by `emitKey`. -/
theorem catStep_emit (ignore : Option IgnoreList) (gk : Str)
    (cat : Str → Option α) (f : Str × α) :
    catStep ignore gk cat f =
      match emitKey ignore gk f.1 with
      | some k => update cat k f.2
      | none => cat := by
  unfold catStep emitKey
  cases execRoot f.1 <;> simp only []
  split <;> rfl

/-- Folding files none of which write key `k` leaves the catalogue unchanged
at `k`. -/
theorem foldl_no_emit (ignore : Option IgnoreList) (gk : Str) (k : Str) :
    ∀ (fs : List (Str × α)) (acc : Str → Option α),
      (∀ f ∈ fs, emitKey ignore gk f.1 ≠ some k) →
      fs.foldl (catStep ignore gk) acc k = acc k := by
  intro fs
  induction fs with
  | nil => intro acc _; rfl
  | cons f t ih =>
    intro acc h
    simp only [List.foldl_cons]
    rw [ih _ (fun g hg => h g (List.mem_cons_of_mem _ hg))]
    rw [catStep_emit]
    cases he : emitKey ignore gk f.1 with
    | none => rfl
    | some k' =>
      have hne : k ≠ k' := by
        intro hkk
        exact h f (List.mem_cons_self _ _) (hkk ▸ he)
      simp [update_apply, hne]

/-- The value of the catalogue at a key is the content of the last file that
writes that key. -/
theorem foldl_last_emit (ignore : Option IgnoreList) (gk : Str) (k : Str)
    (fs1 : List (Str × α)) (p : Str) (c : α) (fs2 : List (Str × α))
    (acc : Str → Option α)
    (hp : emitKey ignore gk p = some k)
    (h2 : ∀ f ∈ fs2, emitKey ignore gk f.1 ≠ some k) :
    (fs1 ++ (p, c) :: fs2).foldl (catStep ignore gk) acc k = some c := by
  rw [List.foldl_append, List.foldl_cons]
  rw [foldl_no_emit _ _ _ _ _ h2]
  rw [catStep_emit]
  simp [hp, update_apply]

/-- Any write of the builder, under any ignore list, targets the file's
classification key. -/
theorem emitKey_preKey (ignore : Option IgnoreList) (gk : Str) (file : Str)
    (k : Str) (h : emitKey ignore gk file = some k) : preKey gk file = k := by
  unfold emitKey at h
  unfold preKey
  cases hr : execRoot file with
  | some g => rw [hr] at h; injection h
  | none =>
    rw [hr] at h
    simp only [] at h
    split at h
    · injection h
    · exact absurd h (by simp)

/-- With an `undefined` locale, `shouldIgnore` never fires. -/
theorem shouldIgnore_none_locale (ig : IgnoreList) (d : Option Str) :
    shouldIgnore ig none d = false := by
  unfold shouldIgnore
  simp

/-!  Helper lemmas about the regex capture groups. -/

/-- A successful greedy group is a part of the word-dash run it was cut
from. -/
theorem tryG_subset : ∀ (n : Nat) (run rest g : Str),
    tryG run rest n = some g → g ⊆ run := by
  intro n
  induction n with
  | zero => intro _ _ _ h; exact absurd h (by simp [tryG])
  | succ k ih =>
    intro run rest g h
    unfold tryG at h
    split at h
    · injection h with h'
      subst h'
      exact List.take_subset _ _
    · exact ih run rest g h

/-- Characters of a `takeWhile isWordDash` run are word-dash characters. -/
theorem mem_run_wordDash {t : Str} {c : Char}
    (h : c ∈ t.takeWhile isWordDash) : isWordDash c = true :=
  List.mem_takeWhile_imp h

/-- Capture groups of a scoped-regex match at one position consist of
word-dash characters. -/
theorem scopedGroups_wordDash {t L D : Str} (h : scopedGroups t = some (L, D)) :
    (∀ c ∈ L, isWordDash c = true) ∧ ∀ c ∈ D, isWordDash c = true := by
  unfold scopedGroups at h
  split at h
  · exact absurd h (by simp)
  · split at h
    · split at h
      · rw [Option.map_eq_some'] at h
        obtain ⟨g2, htry, hpair⟩ := h
        rw [Prod.mk.injEq] at hpair
        constructor
        · intro c hc
          exact mem_run_wordDash (hpair.1 ▸ hc)
        · intro c hc
          have hsub := tryG_subset _ _ _ _ htry
          exact mem_run_wordDash (hsub (hpair.2 ▸ hc))
      · exact absurd h (by simp)
    · exact absurd h (by simp)

/-- Capture groups of a scoped-regex match at one position consist of
word-dash characters. -/
theorem scopedAt_wordDash {s L D : Str} (h : scopedAt s = some (L, D)) :
    (∀ c ∈ L, isWordDash c = true) ∧ ∀ c ∈ D, isWordDash c = true := by
  unfold scopedAt at h
  split at h
  · split at h
    · exact scopedGroups_wordDash h
    · exact absurd h (by simp)
  · exact absurd h (by simp)

/-- Capture groups of a scoped-regex match consist of word-dash
characters. -/
theorem execScoped_wordDash : ∀ {s L D : Str}, execScoped s = some (L, D) →
    (∀ c ∈ L, isWordDash c = true) ∧ ∀ c ∈ D, isWordDash c = true := by
  intro s
  induction s with
  | nil => intro L D h; exact absurd h (by simp [execScoped])
  | cons c t ih =>
    intro L D h
    unfold execScoped at h
    cases hs : scopedAt (c :: t) with
    | some g =>
      simp only [hs] at h
      injection h with h'
      rw [h'] at hs
      exact scopedAt_wordDash hs
    | none =>
      simp only [hs] at h
      exact ih h

/-- Word-dash characters are not dots, so capture groups contain no dot. -/
theorem execScoped_no_dot {s L D : Str} (h : execScoped s = some (L, D)) :
    '.' ∉ L ∧ '.' ∉ D := by
  have hw := execScoped_wordDash h
  constructor
  · intro hc
    have := hw.1 _ hc
    simp [isWordDash] at this
  · intro hc
    have := hw.2 _ hc
    simp [isWordDash] at this

/-- Two one-dot composites with dot-free left parts are equal only
componentwise. -/
theorem append_dot_inj : ∀ (a c : Str) {b d : Str}, '.' ∉ a → '.' ∉ c →
    a ++ '.' :: b = c ++ '.' :: d → a = c ∧ b = d := by
  intro a
  induction a with
  | nil =>
    intro c b d _ hc he
    cases c with
    | nil =>
      simp only [List.nil_append] at he
      exact ⟨rfl, by injection he⟩
    | cons y c' =>
      simp only [List.nil_append, List.cons_append] at he
      injection he with h1 _
      exact absurd (h1 ▸ List.mem_cons_self y c') hc
  | cons x a' ih =>
    intro c b d ha hc he
    cases c with
    | nil =>
      simp only [List.cons_append, List.nil_append] at he
      injection he with h1 _
      exact absurd (h1 ▸ List.mem_cons_self x a') ha
    | cons y c' =>
      simp only [List.cons_append] at he
      injection he with h1 h2
      have ha' : '.' ∉ a' := fun hm => ha (List.mem_cons_of_mem _ hm)
      have hc' : '.' ∉ c' := fun hm => hc (List.mem_cons_of_mem _ hm)
      have := ih c' ha' hc' h2
      exact ⟨by rw [h1, this.1], this.2⟩

/-- A composite key built from dot-free `locale` and `domain` decomposes
uniquely, even against parts that might contain dots. -/
theorem dot_key_inj {l d L D : Str} (hL : '.' ∉ L) (hD : '.' ∉ D)
    (he : l ++ '.' :: d = L ++ '.' :: D) : l = L ∧ d = D := by
  have hcnt := congrArg (List.count '.') he
  simp only [List.count_append, List.count_cons_self] at hcnt
  rw [List.count_eq_zero.mpr hL, List.count_eq_zero.mpr hD] at hcnt
  have hl : '.' ∉ l := List.count_eq_zero.mp (by omega)
  exact append_dot_inj l L hl hL he

/-- For dot-free locale and domain, a key is in the ignored-key set exactly
when `shouldIgnore` fires on the pair. -/
theorem ignoredKey_scoped (ig : IgnoreList) {L D : Str}
    (hL : '.' ∉ L) (hD : '.' ∉ D) :
    ignoredKey ig (L ++ '.' :: D) = shouldIgnore ig (some L) (some D) := by
  rw [Bool.eq_iff_iff]
  unfold ignoredKey shouldIgnore
  simp only [List.any_eq_true, Bool.and_eq_true, beq_iff_eq, Option.some.injEq]
  constructor
  · rintro ⟨e, he, dd, hdd, hk⟩
    have := dot_key_inj hL hD hk.symm
    exact ⟨e, he, this.1.symm, dd, hdd, this.2.symm⟩
  · rintro ⟨e, he, hLe, dd, hdd, hDd⟩
    exact ⟨e, he, dd, hdd, by rw [hLe, hDd]⟩

/-- Value of `emitKey` at a root-matched file, for any ignore list. -/
theorem emitKey_root (ignore : Option IgnoreList) (gk : Str) (p X : Str)
    (hroot : execRoot p = some X) :
    emitKey ignore gk p = some (X ++ '.' :: gk) := by
  simp only [emitKey, hroot]

/-- Value of `emitKey` at a scoped-matched file: write the composite key unless the
pair is ignored. -/
theorem emitKey_scoped (ig : IgnoreList) (gk : Str) (p L D : Str)
    (hroot : execRoot p = none) (hscoped : execScoped p = some (L, D)) :
    emitKey (some ig) gk p =
      if shouldIgnore ig (some L) (some D) then none
      else some (L ++ '.' :: D) := by
  simp only [emitKey, hroot, hscoped, Option.map_some', Option.isNone_some,
    Bool.false_or, jsKey, Option.getD_some]
  cases hsi : shouldIgnore ig (some L) (some D) <;> simp [hsi]

/-- A file matched by neither regex still writes, under the key
`undefined.undefined` (the destructured `isScoped` is never tested and the
`undefined` groups are stringified by the template literal). -/
theorem emitKey_unmatched (ignore : Option IgnoreList) (gk : Str) (p : Str)
    (hroot : execRoot p = none) (hscoped : execScoped p = none) :
    emitKey ignore gk p = some (str "undefined" ++ '.' :: str "undefined") := by
  simp only [emitKey, hroot, hscoped, Option.map_none', jsKey, Option.getD_none]
  cases ignore with
  | none => simp
  | some ig => simp [shouldIgnore_none_locale]

/-- A single `forEach` iteration never erases an existing entry. -/
theorem catStep_ne_none (ignore : Option IgnoreList) (gk : Str)
    (acc : Str → Option α) (f : Str × α) (k : Str) (h : acc k ≠ none) :
    catStep ignore gk acc f k ≠ none := by
  rw [catStep_emit]
  cases he : emitKey ignore gk f.1 with
  | none => exact h
  | some k' =>
    simp only [update_apply]
    split
    · simp
    · exact h

/-- Folding more files never erases an existing entry. -/
theorem foldl_ne_none (ignore : Option IgnoreList) (gk : Str) (k : Str) :
    ∀ (fs : List (Str × α)) (acc : Str → Option α), acc k ≠ none →
      fs.foldl (catStep ignore gk) acc k ≠ none := by
  intro fs
  induction fs with
  | nil => intro acc h; exact h
  | cons f t ih =>
    intro acc h
    simp only [List.foldl_cons]
    exact ih _ (catStep_ne_none _ _ _ _ _ h)

/-- If some enumerated file writes key `k`, the final catalogue has an entry
at `k`. -/
theorem foldl_emit_ne_none (ignore : Option IgnoreList) (gk : Str) (k : Str)
    (fs : List (Str × α)) (acc : Str → Option α) (p : Str) (c : α)
    (hmem : (p, c) ∈ fs) (hp : emitKey ignore gk p = some k) :
    fs.foldl (catStep ignore gk) acc k ≠ none := by
  obtain ⟨s, t, rfl⟩ := List.append_of_mem hmem
  rw [List.foldl_append, List.foldl_cons]
  apply foldl_ne_none
  rw [catStep_emit]
  simp [hp, update_apply]

/-!  Claim theorems. -/

/-- Claim C3: for every bare key `k` (one not matching the qualified-key
shape), `__` delegates to the external translator with the qualified key
`globalTranslationsKey ++ "." ++ k` (its result depends only on the
translator's answer for that key), and when the translator echoes that
qualified key back verbatim (lookup miss), `__` returns the original bare
key with the sentinel prefix stripped. -/
theorem c3_bare_key_echo_stripped {R L : Type} (gk : Str)
    (get : Str → R → L → Str) (key : Str) (rep : R) (loc : L)
    (hb : matchesQualified key = false) :
    (∀ get2 : Str → R → L → Str,
        get2 (gk ++ '.' :: key) rep loc = get (gk ++ '.' :: key) rep loc →
        __ gk get2 key rep loc = __ gk get key rep loc)
    ∧ (get (gk ++ '.' :: key) rep loc = gk ++ '.' :: key →
        __ gk get key rep loc = key) := by
  constructor
  · intro get2 hsame
    simp only [__, hb, Bool.false_eq_true, if_false, hsame]
  · intro hecho
    simp only [__, hb, Bool.false_eq_true, if_false, hecho]
    rw [show List.isPrefixOf gk (gk ++ '.' :: key) = true from
      List.isPrefixOf_iff_prefix.mpr (List.prefix_append gk _)]
    simp [List.drop_append]

/-- Witness for C3 at the spec's own example: a bare key `missing` whose
global lookup misses (the translator echoes the key) comes back as
`missing`, not `__global__.missing`. -/
theorem c3_witness :
    __ (str "__global__") (fun k (_ : Unit) (_ : Unit) => k)
      (str "missing") () () = str "missing" :=
  (c3_bare_key_echo_stripped (str "__global__") (fun k _ _ => k)
    (str "missing") () () (by decide)).2 rfl

/-- Claim C4, counterexample: the code's strip check is
`result.startsWith(globalTranslationsKey)`, without the dot.  With the
default sentinel, a translator result `__global__X` does not start with
`__global__.`, yet `__` does not return it unchanged: it truncates it to
the empty string. -/
theorem c4_counterexample :
    List.isPrefixOf (str "__global__.") (str "__global__X") = false
    ∧ @__ Unit Unit (str "__global__") (fun _ _ _ => str "__global__X")
        (str "k") () () = []
    ∧ ([] : Str) ≠ str "__global__X" := by
  refine ⟨by decide, by decide, by decide⟩

/-- Claim C4 (amended): for a bare key, if the string returned by the
external translator for the qualified global key does not start with
`globalTranslationsKey` itself (the code never includes the dot in the
check), `__` returns that string unchanged. -/
theorem c4_amended {R L : Type} (gk : Str) (get : Str → R → L → Str)
    (key : Str) (rep : R) (loc : L)
    (hb : matchesQualified key = false)
    (hns : List.isPrefixOf gk (get (gk ++ '.' :: key) rep loc) = false) :
    __ gk get key rep loc = get (gk ++ '.' :: key) rep loc := by
  simp only [__, hb, Bool.false_eq_true, if_false, hns]

/-- Witness for C4 (amended): a genuine translation `Hello` for the bare
key `greeting` is returned unchanged. -/
theorem c4_amended_witness :
    __ (str "__global__") (fun _ (_ : Unit) (_ : Unit) => str "Hello")
      (str "greeting") () () = str "Hello" :=
  c4_amended (str "__global__") (fun _ _ _ => str "Hello") (str "greeting")
    () () (by decide) (by decide)

/-- Claim C5: a key matching the qualified-key shape (two or more
dot-separated word/hyphen segments) is delegated directly: `__` returns
exactly the external translator's answer, with no prefix stripping, whatever
that answer looks like. -/
theorem c5_qualified_delegates {R L : Type} (gk : Str)
    (get : Str → R → L → Str) (key : Str) (rep : R) (loc : L)
    (hq : matchesQualified key = true) :
    __ gk get key rep loc = get key rep loc := by
  simp only [__, hq, if_true]

/-- Witness for C5: the qualified key `auth.failed` whose translation
happens to start with the global-domain sentinel is returned verbatim, not
stripped. -/
theorem c5_witness :
    __ (str "__global__") (fun _ (_ : Unit) (_ : Unit) => str "__global__.x")
      (str "auth.failed") () () = str "__global__.x" :=
  c5_qualified_delegates (str "__global__") (fun _ _ _ => str "__global__.x")
    (str "auth.failed") () () (by decide)

/-- Claim C10: a key containing a dot that does not fully match the
qualified-key shape (a character outside word/hyphen/dot, or an empty
segment) is resolved as a bare key in the global domain: `__` computes the
strip-on-sentinel postprocessing of the translator's answer for
`globalTranslationsKey ++ "." ++ key`, and its result depends only on the
translator's answer at that qualified global key. -/
theorem c10_dotted_not_qualified {R L : Type} (gk : Str)
    (get : Str → R → L → Str) (key : Str) (rep : R) (loc : L)
    (hdot : '.' ∈ key) (hb : matchesQualified key = false) :
    (__ gk get key rep loc =
      if List.isPrefixOf gk (get (gk ++ '.' :: key) rep loc)
      then (get (gk ++ '.' :: key) rep loc).drop (gk.length + 1)
      else get (gk ++ '.' :: key) rep loc)
    ∧ ∀ get2 : Str → R → L → Str,
        get2 (gk ++ '.' :: key) rep loc = get (gk ++ '.' :: key) rep loc →
        __ gk get2 key rep loc = __ gk get key rep loc := by
  constructor
  · simp only [__, hb, Bool.false_eq_true, if_false]
  · intro get2 hsame
    simp only [__, hb, Bool.false_eq_true, if_false, hsame]

/-- Witness for C10 at the key `auth.failed!`: it contains a dot, fails the
qualified shape, and is looked up as `__global__.auth.failed!` (here the
translator echoes, and the echo is stripped back to the bare key). -/
theorem c10_witness :
    ('.' ∈ str "auth.failed!")
    ∧ matchesQualified (str "auth.failed!") = false
    ∧ __ (str "__global__") (fun k (_ : Unit) (_ : Unit) => k)
        (str "auth.failed!") () () =
      (if List.isPrefixOf (str "__global__")
          (str "__global__" ++ '.' :: str "auth.failed!")
       then (str "__global__" ++ '.' :: str "auth.failed!").drop
          ((str "__global__").length + 1)
       else str "__global__" ++ '.' :: str "auth.failed!") :=
  ⟨by decide, by decide,
    (c10_dotted_not_qualified (str "__global__") (fun k _ _ => k)
      (str "auth.failed!") () () (by decide) (by decide)).1⟩

/-- Claim C8: when the options record carries a `messages` field, the
translator is constructed with exactly that pre-built catalogue and the
file set is never consulted (the result is the same for every enumerated
file set); when `messages` is absent, the translator gets the catalogue
produced by discovery over the options' ignore list and effective
global-translations key. -/
theorem c8_messages_bypass {α : Type} (o : Options α) :
    (∀ m, o.messages = some m →
      ∀ fs fs' : List (Str × α),
        installMessages o fs = m ∧ installMessages o fs = installMessages o fs')
    ∧ (o.messages = none →
      ∀ fs : List (Str × α),
        installMessages o fs = importTranslations o.ignore (gkEff o) fs) := by
  constructor
  · intro m hm fs fs'
    simp [installMessages, hm]
  · intro hm fs
    simp [installMessages, hm]

/-- Witness for C8: a pre-built catalogue is handed through untouched
regardless of the file set, and without `messages` the discovery result is
used. -/
theorem c8_witness :
    installMessages ⟨none, none, some (fun _ => some (7 : Nat))⟩
        [(str "./en.json", 5)] = (fun _ => some (7 : Nat))
    ∧ installMessages (⟨none, none, none⟩ : Options Nat) [] =
        importTranslations none (gkEff (⟨none, none, none⟩ : Options Nat)) [] :=
  ⟨((c8_messages_bypass ⟨none, none, some (fun _ => some (7 : Nat))⟩).1 _ rfl
      [(str "./en.json", 5)] []).1,
    (c8_messages_bypass (⟨none, none, none⟩ : Options Nat)).2 rfl []⟩

/-- Claim C2, evaluation at the failing input: the path `./a/b/c.json`
(nested two directories deep) matches neither regex, yet the builder still
adds an entry for it — the destructured `isScoped` flag is never tested, so
the scoped branch runs with `undefined` capture groups and assigns
`catalogue["undefined.undefined"]` to the file's parsed content. -/
theorem c2_unmatched_path_writes :
    execRoot (str "./a/b/c.json") = none
    ∧ execScoped (str "./a/b/c.json") = none
    ∧ importTranslations none (str "__global__")
        [(str "./a/b/c.json", (0 : Nat))] (str "undefined.undefined") =
      some 0 := by
  refine ⟨by decide, by decide, by decide⟩

/-- Claim C6, counterexample: two root-level files with the same stem
(`./en.json` then `./en.php`) classify to the same key `en.__global__`;
the catalogue maps it to the later file's content, so it is not mapped to
the earlier file's parsed content as the claim demands for every root-level
file. -/
theorem c6_counterexample :
    importTranslations none (str "__global__")
        [(str "./en.json", (0 : Nat)), (str "./en.php", 1)]
        (str "en.__global__") = some 1
    ∧ importTranslations none (str "__global__")
        [(str "./en.json", (0 : Nat)), (str "./en.php", 1)]
        (str "en.__global__") ≠ some 0 := by
  refine ⟨by decide, by decide⟩

/-- Claim C6 (amended): a root-level file `./X.<ext>` always produces an
entry under `X.<globalTranslationsKey>` — for every ignore list, so the
ignore list is never consulted for it, even when `X` equals an ignored
locale — and the entry holds that file's parsed content provided no
later-enumerated file classifies to the same key. -/
theorem c6_root_entry (ignore : Option IgnoreList) (gk X p : Str) (c : α)
    (hroot : execRoot p = some X) :
    (∀ fs : List (Str × α), (p, c) ∈ fs →
        importTranslations ignore gk fs (X ++ '.' :: gk) ≠ none)
    ∧ ∀ fs1 fs2 : List (Str × α),
        (∀ f ∈ fs2, preKey gk f.1 ≠ X ++ '.' :: gk) →
        importTranslations ignore gk (fs1 ++ (p, c) :: fs2)
          (X ++ '.' :: gk) = some c := by
  constructor
  · intro fs hmem
    exact foldl_emit_ne_none ignore gk _ fs _ p c hmem
      (emitKey_root ignore gk p X hroot)
  · intro fs1 fs2 h2
    apply foldl_last_emit
    · exact emitKey_root ignore gk p X hroot
    · intro f hf he
      exact h2 f hf (emitKey_preKey _ _ _ _ he)

/-- Witness for C6 (amended): the root file `./en.json` yields the entry
`en.__global__` even under an ignore list that names the locale `en`. -/
theorem c6_root_entry_witness :
    importTranslations (some [(str "en", [str "auth"])]) (str "__global__")
        ([] ++ (str "./en.json", (3 : Nat)) :: [(str "./en/auth.json", 4)])
        (str "en" ++ '.' :: str "__global__") = some 3 :=
  (c6_root_entry (some [(str "en", [str "auth"])]) (str "__global__")
      (str "en") (str "./en.json") 3 (by decide)).2
    [] [(str "./en/auth.json", 4)] (by decide)

/-- Claim C9: when several enumerated files classify to the same catalogue
key, each file's assignment overwrites any earlier entry under that key, so
the catalogue maps the key to the parsed content of the file enumerated
last among those writing it — here stated for two writers `p` (earlier,
content `c`) and `q` (later, content `d`): the result is `d`, whatever `c`
was. -/
theorem c9_later_file_overwrites (ignore : Option IgnoreList) (gk k : Str)
    (fs1 fs2 fs3 : List (Str × α)) (p q : Str) (c d : α)
    (hp : emitKey ignore gk p = some k)
    (hq : emitKey ignore gk q = some k)
    (h3 : ∀ f ∈ fs3, emitKey ignore gk f.1 ≠ some k) :
    importTranslations ignore gk
      ((fs1 ++ (p, c) :: fs2) ++ (q, d) :: fs3) k = some d := by
  apply foldl_last_emit
  · exact hq
  · exact h3

/-- Witness for C9: `./en/auth.json` and `./en/auth.php` both classify to
`en.auth`; the catalogue keeps the later file's content. -/
theorem c9_witness :
    importTranslations none (str "__global__")
      (([] ++ (str "./en/auth.json", (0 : Nat)) :: []) ++
        (str "./en/auth.php", 1) :: []) (str "en.auth") = some 1 :=
  c9_later_file_overwrites none (str "__global__") (str "en.auth")
    [] [] [] (str "./en/auth.json") (str "./en/auth.php") 0 1
    (by decide) (by decide) (by decide)

/-- Claim C1, counterexamples.  First: the scoped file
`./en/__global__.json` is in the enumerated set and its pair
`(en, __global__)` is in the ignore list, yet the catalogue does contain
the key `en.__global__` — produced by the root-level file `./en.json`,
whose global entry bypasses the ignore filter.  Second: the scoped-shaped
path `./en/php.json` is claimed by the root regex first (its unescaped dot
matches the directory slash and `php.json` begins with `php`), so the file
is root-classified: the catalogue gets `en.__global__` — even when
`(en, php)` is in the ignore list — and the key `en.php` is never
created, although `(en, php)` is not ignored in the unfiltered run. -/
theorem c1_counterexample :
    (shouldIgnore [(str "en", [str "__global__"])]
        (some (str "en")) (some (str "__global__")) = true
    ∧ execScoped (str "./en/__global__.json") =
        some (str "en", str "__global__")
    ∧ importTranslations (some [(str "en", [str "__global__"])])
        (str "__global__")
        [(str "./en.json", (0 : Nat)), (str "./en/__global__.json", 1)]
        (str "en.__global__") = some 0)
    ∧ (execRoot (str "./en/php.json") = some (str "en")
    ∧ execScoped (str "./en/php.json") = some (str "en", str "php")
    ∧ importTranslations none (str "__global__")
        [(str "./en/php.json", (0 : Nat))] (str "en.php") = none
    ∧ importTranslations (some [(str "en", [str "php"])]) (str "__global__")
        [(str "./en/php.json", (0 : Nat))] (str "en.__global__") = some 0) := by
  refine ⟨⟨by decide, by decide, by decide⟩,
    by decide, by decide, by decide, by decide⟩

/-- Claim C1 (amended): for a scoped file `p` that the builder actually
scoped-classifies with capture groups `(L, D)` — the root regex must fail
on `p`; its unescaped dot can match the directory slash, so a
scoped-shaped path whose remainder after the locale directory begins with
`php` or `json` (such as `./en/php.json`) is root-classified instead,
writing `en.<globalTranslationsKey>` and never the key `en.php` — :
if `(L, D)` is in the ignore list, `p` contributes no entry, and the key
`L.D` is absent provided no other enumerated file classifies to that same
key (a root-level file does when the global-translations key equals `D`);
if `(L, D)` is not in the ignore list and no later-enumerated file
classifies to `L.D`, the catalogue maps `L.D` to `p`'s parsed content. -/
theorem c1_scoped_ignore (ig : IgnoreList) (gk L D p : Str)
    (hroot : execRoot p = none) (hscoped : execScoped p = some (L, D)) :
    (shouldIgnore ig (some L) (some D) = true →
      ∀ (fs : List (Str × α)),
        (∀ f ∈ fs, f.1 ≠ p → preKey gk f.1 ≠ L ++ '.' :: D) →
        importTranslations (some ig) gk fs (L ++ '.' :: D) = none)
    ∧ (shouldIgnore ig (some L) (some D) = false →
      ∀ (fs1 fs2 : List (Str × α)) (c : α),
        (∀ f ∈ fs2, preKey gk f.1 ≠ L ++ '.' :: D) →
        importTranslations (some ig) gk (fs1 ++ (p, c) :: fs2)
          (L ++ '.' :: D) = some c) := by
  constructor
  · intro hsi fs hothers
    unfold importTranslations
    rw [foldl_no_emit]
    intro f hf he
    by_cases hfp : f.1 = p
    · rw [hfp, emitKey_scoped ig gk p L D hroot hscoped, hsi] at he
      exact absurd he (by simp)
    · exact hothers f hf hfp (emitKey_preKey _ _ _ _ he)
  · intro hsi fs1 fs2 c h2
    apply foldl_last_emit
    · rw [emitKey_scoped ig gk p L D hroot hscoped, hsi]
      simp
    · intro f hf he
      exact h2 f hf (emitKey_preKey _ _ _ _ he)

/-- Witness for C1 (amended), both halves: with `(en, auth)` ignored the key
`en.auth` is absent; with an empty ignore list the scoped file's content is
found under `en.auth`. -/
theorem c1_scoped_ignore_witness :
    importTranslations (some [(str "en", [str "auth"])]) (str "__global__")
        [(str "./en/auth.json", (0 : Nat)), (str "./fr.json", 1)]
        (str "en" ++ '.' :: str "auth") = none
    ∧ importTranslations (some []) (str "__global__")
        ([] ++ (str "./en/auth.json", (0 : Nat)) :: [(str "./fr.json", 1)])
        (str "en" ++ '.' :: str "auth") = some 0 :=
  ⟨(c1_scoped_ignore [(str "en", [str "auth"])] (str "__global__")
        (str "en") (str "auth") (str "./en/auth.json")
        (by decide) (by decide)).1 (by decide)
      [(str "./en/auth.json", (0 : Nat)), (str "./fr.json", 1)] (by decide),
    (c1_scoped_ignore [] (str "__global__")
        (str "en") (str "auth") (str "./en/auth.json")
        (by decide) (by decide)).2 (by decide)
      [] [(str "./fr.json", 1)] 0 (by decide)⟩

/-- Value of `emitKey` at a scoped-matched file when no ignore list was supplied. -/
theorem emitKey_scoped_none (gk : Str) (p L D : Str)
    (hroot : execRoot p = none) (hscoped : execScoped p = some (L, D)) :
    emitKey none gk p = some (L ++ '.' :: D) := by
  simp only [emitKey, hroot, hscoped, Option.map_some', Option.isNone_none,
    Bool.true_or, if_true, jsKey, Option.getD_some]

/-- Invariant carried through the fold for C7: as long as no root-matched
(or unmatched) file targets an ignored composite key, the filtered
catalogue agrees with the unfiltered one away from the ignored keys and is
empty on them. -/
theorem c7_aux {α : Type} (ig : IgnoreList) (gk : Str) :
    ∀ (fs : List (Str × α)) (acc1 acc2 : Str → Option α),
      fs.all (fun f =>
        match execRoot f.1, execScoped f.1 with
        | some X, _ => !ignoredKey ig (X ++ '.' :: gk)
        | none, some _ => true
        | none, none =>
          !ignoredKey ig (str "undefined" ++ '.' :: str "undefined")) = true →
      (∀ q, acc1 q = if ignoredKey ig q then none else acc2 q) →
      ∀ k, fs.foldl (catStep (some ig) gk) acc1 k =
        if ignoredKey ig k then none
        else fs.foldl (catStep none gk) acc2 k := by
  intro fs
  induction fs with
  | nil => intro acc1 acc2 _ hinv k; exact hinv k
  | cons f t ih =>
    intro acc1 acc2 hpre hinv k
    rw [List.all_cons, Bool.and_eq_true] at hpre
    obtain ⟨hf, ht⟩ := hpre
    simp only [List.foldl_cons]
    apply ih _ _ ht
    intro q
    rw [catStep_emit, catStep_emit]
    cases hr : execRoot f.1 with
    | some X =>
      simp only [hr] at hf
      rw [Bool.not_eq_true'] at hf
      rw [emitKey_root (some ig) gk f.1 X hr, emitKey_root none gk f.1 X hr]
      by_cases hq : q = X ++ '.' :: gk
      · simp [update_apply, hq, hf]
      · simp [update_apply, hq, hinv q]
    | none =>
      cases hs : execScoped f.1 with
      | some LD =>
        obtain ⟨L, D⟩ := LD
        have hdot := execScoped_no_dot hs
        have hik := ignoredKey_scoped ig hdot.1 hdot.2
        rw [emitKey_scoped ig gk f.1 L D hr hs, emitKey_scoped_none gk f.1 L D hr hs]
        cases hsi : shouldIgnore ig (some L) (some D) with
        | true =>
          by_cases hq : q = L ++ '.' :: D
          · simp [update_apply, hq, hinv, hik, hsi]
          · simp [update_apply, hq, hinv q]
        | false =>
          by_cases hq : q = L ++ '.' :: D
          · simp [update_apply, hq, hik, hsi]
          · simp [update_apply, hq, hinv q]
      | none =>
        simp only [hr, hs] at hf
        rw [Bool.not_eq_true'] at hf
        rw [emitKey_unmatched (some ig) gk f.1 hr hs,
          emitKey_unmatched none gk f.1 hr hs]
        by_cases hq : q = str "undefined" ++ '.' :: str "undefined"
        · simp [update_apply, hq, hf]
        · simp [update_apply, hq, hinv q]

/-- Claim C7, counterexample: with the ignore list `{en: [__global__]}` over
the file set `[./en.json]`, the pair `(en, __global__)` names an ignored
key, yet the filtered catalogue still holds it (the root-level file writes
it without consulting the filter) — so the filtered catalogue is not the
unfiltered catalogue minus its ignored entries. -/
theorem c7_counterexample :
    ignoredKey [(str "en", [str "__global__"])] (str "en.__global__") = true
    ∧ importTranslations (some [(str "en", [str "__global__"])])
        (str "__global__") [(str "./en.json", (0 : Nat))]
        (str "en.__global__") = some 0
    ∧ importTranslations (some [(str "en", [str "__global__"])])
        (str "__global__") [(str "./en.json", (0 : Nat))]
        (str "en.__global__") ≠
      (if ignoredKey [(str "en", [str "__global__"])] (str "en.__global__")
       then none
       else importTranslations none (str "__global__")
         [(str "./en.json", (0 : Nat))] (str "en.__global__")) := by
  refine ⟨by decide, by decide, by decide⟩

/-- Claim C7 (amended): catalogue building is modelled as a pure function
of the file set, ignore list and global-translations key (identical inputs
give identical catalogues by construction); and provided no root-matched
file targets an ignored composite key and, when some file matches neither
regex, `undefined.undefined` is not an ignored key, the catalogue built
with an ignore list is exactly the unfiltered catalogue minus the ignored
`locale.domain` entries. -/
theorem c7_ignore_difference {α : Type} (ig : IgnoreList) (gk : Str)
    (fs : List (Str × α))
    (hpre : fs.all (fun f =>
      match execRoot f.1, execScoped f.1 with
      | some X, _ => !ignoredKey ig (X ++ '.' :: gk)
      | none, some _ => true
      | none, none =>
        !ignoredKey ig (str "undefined" ++ '.' :: str "undefined")) = true) :
    ∀ k, importTranslations (some ig) gk fs k =
      if ignoredKey ig k then none
      else importTranslations none gk fs k := by
  intro k
  exact c7_aux ig gk fs (fun _ => none) (fun _ => none) hpre
    (fun q => by simp) k

/-- Witness for C7 (amended) over a file set with one scoped and one root
file, ignoring `(en, auth)`: at the ignored key the filtered catalogue is
empty, as the minus-construction predicts. -/
theorem c7_ignore_difference_witness :
    importTranslations (some [(str "en", [str "auth"])]) (str "__global__")
        [(str "./en/auth.json", (0 : Nat)), (str "./fr.json", 1)]
        (str "en.auth") =
      (if ignoredKey [(str "en", [str "auth"])] (str "en.auth") then none
       else importTranslations none (str "__global__")
         [(str "./en/auth.json", (0 : Nat)), (str "./fr.json", 1)]
         (str "en.auth")) :=
  c7_ignore_difference [(str "en", [str "auth"])] (str "__global__")
    [(str "./en/auth.json", (0 : Nat)), (str "./fr.json", 1)]
    (by decide) (str "en.auth")
